import Mathlib

/-!
Verification development for the ASG stimulus-generation library
(Source/Stimuli.cpp, Source/PureTone.cpp, Source/Stim2Dac.cpp,
Include/ASGMath.h).

Modelling conventions.
* float32 values that the code only adds, multiplies, divides and
  compares are modelled as exact rationals (ℚ); on every input used
  in the claims the float32 computation is exact, so the rational
  model agrees with the code.
* The angle computations feeding `sin` are modelled over ℝ with the
  mathematical constant π standing for the source literals
  `PI = 3.14159265358979f` / `DOUBLE_PI = 6.28318530717959f` (those
  literals are exactly the float32 roundings of π and 2π; the spec's
  tolerance language makes the idealised real model the intended
  semantic domain).
* A C++ conversion from floating point to a signed integer type is
  undefined behaviour when the truncated value is unrepresentable;
  such conversions are modelled by `Option ℤ`, `none` standing for
  undefined behaviour.  Integer-to-unsigned conversions are
  reductions modulo 2^w and stay total.
* Null pointers: an output buffer pointer is modelled by a `Bool`
  flag (`bufferNull`); the adapter's stimulus pointer is modelled by
  `Option`, a null dereference by a `none` result (undefined
  behaviour).
* A polymorphic `Stimuli` pulled one sample at a time is modelled by
  the sequence of its replies: `pulls : ℕ → Option (ℚ × ℤ)`, where
  `pulls k = none` means the k-th single-sample call returned 0
  samples, and `pulls k = some (v, st)` means it produced the value
  `v` and wrote `st` into the caller's `syncTmp`.
-/

namespace ASG

/-- FLOAT32_TOLERANCE from ASGMath.h: 0.000001f. -/
noncomputable def FLOAT32_TOLERANCE : ℝ := 1 / 1000000

/-- PI from ASGMath.h (3.14159265358979f), idealised to the real π. -/
noncomputable def PI : ℝ := Real.pi

/-- DOUBLE_PI from ASGMath.h (6.28318530717959f), idealised to 2π. -/
noncomputable def DOUBLE_PI : ℝ := 2 * Real.pi

/-- MIN_GENERATABLE_FREQUENCY from ASGMath.h: 10.0f. -/
def MIN_GENERATABLE_FREQUENCY : ℚ := 10

/-- MAX_GENERATABLE_FREQUENCY from ASGMath.h: 20000.0f. -/
def MAX_GENERATABLE_FREQUENCY : ℚ := 20000

/-- C++ conversion of a (truncated) floating value to a signed
integer of width `w` bits: the identity on representable values,
undefined behaviour (`none`) otherwise. -/
def intWcast (w : ℕ) (z : ℤ) : Option ℤ :=
  if z < -(2 ^ (w - 1)) ∨ 2 ^ (w - 1) ≤ z then none else some z

/-- ASG::round from ASGMath.h:
`static_cast<int32_t>(std::ceil(x - 0.5f))`.  The ceiling is taken
exactly; the float-to-int32 conversion is UB outside int32 range. -/
def round (x : ℚ) : Option ℤ :=
  intWcast 32 ⌈x - 1 / 2⌉

/-- Truncation toward zero of a rational, as C++ float-to-integer
conversion truncates. -/
def ratTrunc (q : ℚ) : ℤ :=
  if q < 0 then ⌈q⌉ else ⌊q⌋

/-- Truncation toward zero of a real (the `n = trunc(x/y)` used by
C `fmod`). -/
noncomputable def truncR (x : ℝ) : ℤ :=
  if x < 0 then ⌈x⌉ else ⌊x⌋

/-- normalizeRadian from ASGMath.h: `std::fmod(radian, 2*ASG::PI)`.
C `fmod(x, y) = x - y * trunc(x / y)` (result carries the sign of
the dividend). -/
noncomputable def normalizeRadian (radian : ℝ) : ℝ :=
  radian - (2 * PI) * truncR (radian / (2 * PI))

/-- uint32 subtraction `a - b` (modulo 2^32). -/
def sub32 (a b : ℕ) : ℕ :=
  (a + 2 ^ 32 - b) % 2 ^ 32

/-- ASG::pow(int32_t base, int32_t exp) from ASGMath.h:
`ASG::round(std::pow(float(base), exp))`, result converted to
uint32.  float32 `pow` is exact on the powers of two the library
uses, so the rational model is exact; `ASG::round`'s float-to-int32
conversion makes the result undefined once it reaches 2^31. -/
def powInt (base exp : ℕ) : Option ℕ :=
  (ASG.round ((base : ℚ) ^ exp)).map (fun z => (z % 2 ^ 32).toNat)

/-- seconds2samples from ASGMath.h:
`static_cast<size_t>(round(seconds * samplingFreq))` (ASG::round,
then int32 → size_t conversion, modelled modulo 2^64). -/
def seconds2samples (seconds samplingFreq : ℚ) : Option ℕ :=
  (ASG.round (seconds * samplingFreq)).map (fun z => (z % 2 ^ 64).toNat)

/-- State of a PureTone object (fields of Stimuli and PureTone).
`position` and `periodSize_samples` are uint32 indices; frequencies
are float32 modelled as ℚ (NaN cannot be stored: both setters reject
it); `phase` and `stepArgument` are the idealised real angles. -/
structure PureTone where
  position : ℕ
  samplingFrequency : ℚ
  toneFrequency : ℚ
  phase : ℝ
  stepArgument : ℝ
  periodSize_samples : ℕ

/-- PureTone::PureTone() together with the Stimuli::Stimuli() base
constructor: position 0, samplingFrequency 1.0, toneFrequency 500.0,
phase 0, stepArgument 0, periodSize_samples 0. -/
def PureTone.init : PureTone :=
  ⟨0, 1, 500, 0, 0, 0⟩

/-- Stimuli::setSamplingFrequency: rejects `freq <= 0` and NaN
(`none` models a NaN argument), else stores the frequency.  Note it
recomputes nothing else. -/
def PureTone.setSamplingFrequency (s : PureTone) (x : Option ℚ) : Bool × PureTone :=
  match x with
  | none => (false, s)
  | some freq =>
    if freq ≤ 0 then (false, s) else (true, { s with samplingFrequency := freq })

/-- PureTone::getPeriod_secs: `1.0f / getToneFrequency()`. -/
def PureTone.getPeriod_secs (s : PureTone) : ℚ :=
  1 / s.toneFrequency

/-- PureTone::setStepArgument:
`stepArgument_ = ASG::DOUBLE_PI * getToneFrequency() / getSamplingFrequency()`. -/
noncomputable def PureTone.setStepArgument (s : PureTone) : PureTone :=
  { s with stepArgument := DOUBLE_PI * (s.toneFrequency : ℝ) / (s.samplingFrequency : ℝ) }

/-- PureTone::setToneFrequency.  A `none` argument models NaN (it
fails both order comparisons and is then caught by `isnan`, so the
call returns false with the state unchanged, exactly as modelled).
On success the new frequency is committed, the step argument is
recomputed, and `periodSize_samples_` is recomputed through
`seconds2samples(getPeriod_secs(), getSamplingFrequency())` (the
size_t result is stored in a uint32 field, hence the mod 2^32). -/
noncomputable def PureTone.setToneFrequency (s : PureTone) (x : Option ℚ) :
    Option (Bool × PureTone) :=
  match x with
  | none => some (false, s)
  | some freq =>
    if freq ≤ MIN_GENERATABLE_FREQUENCY ∨ MAX_GENERATABLE_FREQUENCY ≤ freq then
      some (false, s)
    else
      let s1 := PureTone.setStepArgument { s with toneFrequency := freq }
      (seconds2samples s1.getPeriod_secs s1.samplingFrequency).map
        (fun p => (true, { s1 with periodSize_samples := p % 2 ^ 32 }))

/-- PureTone::setPhase: `phase_ = normalizeRadian(phase); return true;`. -/
noncomputable def PureTone.setPhase (s : PureTone) (phase : ℝ) : Bool × PureTone :=
  (true, { s with phase := normalizeRadian phase })

/-- Index of the first sample of the call for which
`(position + index) % periodSize_samples == 0` (the synchronisation
scan of PureTone::generate). -/
def PureTone.firstSync (pos P size : ℕ) : Option ℕ :=
  (List.range size).find? (fun i => (pos + i) % P == 0)

/-- The `sync` value PureTone::generate reports: `-1` when no sample
of the call sits on a period boundary, else the in-buffer index of
the first such sample. -/
def PureTone.syncOf (pos P size : ℕ) : ℤ :=
  match PureTone.firstSync pos P size with
  | some i => (i : ℤ)
  | none => -1

/-- The position update at the end of PureTone::generate: wrap
modulo `periodSize_samples` once `position + size` reaches it. -/
def PureTone.nextPosition (s : PureTone) (size : ℕ) : ℕ :=
  if s.periodSize_samples ≤ s.position + size then
    (s.position + size) % s.periodSize_samples
  else
    s.position + size

/-- Result of one PureTone::generate call: return value, samples
written to the buffer, the `sync` reference (`none` when the call
never wrote it), and the updated object state. -/
structure ToneGenResult where
  retval : ℕ
  samples : List ℝ
  sync : Option ℤ
  state : PureTone

/-- PureTone::generate.  After the precondition check every
iteration evaluates `(position + index) % periodSize_samples_`, so a
passing call with `periodSize_samples_ == 0` divides by zero:
undefined behaviour, modelled by `none`. -/
noncomputable def PureTone.generate (s : PureTone) (bufferNull : Bool) (size : ℕ) :
    Option ToneGenResult :=
  if bufferNull = true ∨ size = 0 ∨ s.toneFrequency = 0 ∨ s.samplingFrequency = 0 then
    some ⟨0, [], none, s⟩
  else if s.periodSize_samples = 0 then
    none
  else
    some ⟨size,
      (List.range size).map
        (fun i => Real.sin (s.stepArgument * ((s.position + i : ℕ) : ℝ) + s.phase)),
      some (PureTone.syncOf s.position s.periodSize_samples size),
      { s with position := s.nextPosition size }⟩

/-- State of a Stim2Dac adapter.  The referenced stimulus is either
null (`none`) or the sequence of replies of its single-sample
`generate` calls. -/
structure Stim2Dac where
  stimuli : Option (ℕ → Option (ℚ × ℤ))
  dacResolution : ℕ
  dynamicRange : ℕ
  dynamicRangeToScale : ℕ

/-- Stim2Dac::setDacResolution: stores the resolution and recomputes
`dynamicRange_ = ASG::pow(2, dacResolution)` and
`dynamicRangeToScale_ = dynamicRange_ / 2 - 1` (uint32 arithmetic). -/
def Stim2Dac.setDacResolution (s : Stim2Dac) (bits : ℕ) : Option Stim2Dac :=
  (powInt 2 bits).map
    (fun dr =>
      { s with dacResolution := bits, dynamicRange := dr,
               dynamicRangeToScale := sub32 (dr / 2) 1 })

/-- Stim2Dac::Stim2Dac(stimuli, dacResolution): stores the stimulus
pointer and runs setDacResolution. -/
def Stim2Dac.mkStim (stimuli : Option (ℕ → Option (ℚ × ℤ))) (bits : ℕ) :
    Option Stim2Dac :=
  Stim2Dac.setDacResolution ⟨stimuli, 0, 0, 0⟩ bits

/-- The per-sample conversion of the unsigned generate overloads:
`ASG::round((tmpValue + 1.0f) / 2.0f * (dynamicRange_ - 1))`, the
int32 result then converted to the unsigned buffer element type of
width `w` (reduction mod 2^w). -/
def quantUnsigned (dynamicRange w : ℕ) (v : ℚ) : Option ℤ :=
  (ASG.round ((v + 1) / 2 * ((sub32 dynamicRange 1 : ℕ) : ℚ))).map
    (fun z => z % (2 : ℤ) ^ w)

/-- The per-sample conversion of the signed generate overloads:
`static_cast<intW_t>(tmpValue * dynamicRangeToScale_)` — truncation
toward zero, undefined behaviour outside the signed range. -/
def quantSigned (scale w : ℕ) (v : ℚ) : Option ℤ :=
  intWcast w (ratTrunc (v * (scale : ℚ)))

/-- Result of one adapter generate call: return value, buffer
contents, and the `sync` reference (`none` when never written). -/
structure DacGenResult where
  retval : ℕ
  buffer : List ℤ
  sync : Option ℤ
deriving DecidableEq

/-- The common pull-quantise-store loop of all six Stim2Dac::generate
overloads.  `useIndex` selects what a found mark stores into `sync`:
the in-buffer index (uint32/int32 overloads) or the pulled `syncTmp`
value (16- and 8-bit overloads).  A pull returning 0 samples stops
the loop with the count produced so far; a quantisation UB makes the
whole call undefined. -/
def dacLoop (pulls : ℕ → Option (ℚ × ℤ)) (quant : ℚ → Option ℤ) (useIndex : Bool) :
    (remaining index : ℕ) → List ℤ → Option ℤ → Bool → Option DacGenResult
  | 0, index, buf, sy, _ => some ⟨index, buf, sy⟩
  | remaining + 1, index, buf, sy, found =>
    match pulls index with
    | none => some ⟨index, buf, sy⟩
    | some (v, st) =>
      match quant v with
      | none => none
      | some q =>
        if found = false ∧ st ≠ -1 then
          dacLoop pulls quant useIndex remaining (index + 1) (buf ++ [q])
            (some (if useIndex then (index : ℤ) else st)) true
        else
          dacLoop pulls quant useIndex remaining (index + 1) (buf ++ [q]) sy found

/-- Stim2Dac::generate(uint32_t*, size_t, int32_t&): guard
`buffer null ∨ stimuli null ∨ dacResolution > 32 ∨ size <= 1`;
sync gets the in-buffer index and is never initialised. -/
def Stim2Dac.generateU32 (s : Stim2Dac) (bufferNull : Bool) (size : ℕ) :
    Option DacGenResult :=
  if bufferNull = true ∨ s.stimuli.isNone ∨ 32 < s.dacResolution ∨ size ≤ 1 then
    some ⟨0, [], none⟩
  else
    match s.stimuli with
    | none => none
    | some pulls => dacLoop pulls (quantUnsigned s.dynamicRange 32) true size 0 [] none false

/-- Stim2Dac::generate(int32_t*, size_t, int32_t&): guard only
`buffer null ∨ dacResolution > 32`; a null stimulus is dereferenced
(UB).  This overload alone initialises `sync = -1`; it stores the
in-buffer index on a mark. -/
def Stim2Dac.generateI32 (s : Stim2Dac) (bufferNull : Bool) (size : ℕ) :
    Option DacGenResult :=
  if bufferNull = true ∨ 32 < s.dacResolution then
    some ⟨0, [], none⟩
  else
    match s.stimuli with
    | none => none
    | some pulls =>
      dacLoop pulls (quantSigned s.dynamicRangeToScale 32) true size 0 [] (some (-1)) false

/-- Stim2Dac::generate(uint16_t*, size_t, int32_t&): guard
`buffer null ∨ dacResolution > 16`; null stimulus dereferenced (UB);
sync never initialised; a mark stores the pulled `syncTmp` value. -/
def Stim2Dac.generateU16 (s : Stim2Dac) (bufferNull : Bool) (size : ℕ) :
    Option DacGenResult :=
  if bufferNull = true ∨ 16 < s.dacResolution then
    some ⟨0, [], none⟩
  else
    match s.stimuli with
    | none => none
    | some pulls => dacLoop pulls (quantUnsigned s.dynamicRange 16) false size 0 [] none false

/-- Stim2Dac::generate(int16_t*, size_t, int32_t&): guard
`buffer null ∨ dacResolution > 16`; null stimulus dereferenced (UB);
sync never initialised; a mark stores the pulled `syncTmp` value. -/
def Stim2Dac.generateI16 (s : Stim2Dac) (bufferNull : Bool) (size : ℕ) :
    Option DacGenResult :=
  if bufferNull = true ∨ 16 < s.dacResolution then
    some ⟨0, [], none⟩
  else
    match s.stimuli with
    | none => none
    | some pulls =>
      dacLoop pulls (quantSigned s.dynamicRangeToScale 16) false size 0 [] none false

/-- Stim2Dac::generate(uint8_t*, size_t, int32_t&): guard
`buffer null ∨ dacResolution > 8`; null stimulus dereferenced (UB);
sync never initialised; a mark stores the pulled `syncTmp` value. -/
def Stim2Dac.generateU8 (s : Stim2Dac) (bufferNull : Bool) (size : ℕ) :
    Option DacGenResult :=
  if bufferNull = true ∨ 8 < s.dacResolution then
    some ⟨0, [], none⟩
  else
    match s.stimuli with
    | none => none
    | some pulls => dacLoop pulls (quantUnsigned s.dynamicRange 8) false size 0 [] none false

/-- Stim2Dac::generate(int8_t*, size_t, int32_t&): guard
`buffer null ∨ dacResolution > 8`; null stimulus dereferenced (UB);
sync never initialised; a mark stores the pulled `syncTmp` value. -/
def Stim2Dac.generateI8 (s : Stim2Dac) (bufferNull : Bool) (size : ℕ) :
    Option DacGenResult :=
  if bufferNull = true ∨ 8 < s.dacResolution then
    some ⟨0, [], none⟩
  else
    match s.stimuli with
    | none => none
    | some pulls =>
      dacLoop pulls (quantSigned s.dynamicRangeToScale 8) false size 0 [] none false

/-- A stimulus whose third single-sample pull reports the mark
(`syncTmp = 0`): every pull yields the sample 0.0. -/
def pullsMarkAtTwo : ℕ → Option (ℚ × ℤ) :=
  fun k => if k = 2 then some (0, 0) else some (0, -1)

/-- A stimulus that never reports a mark. -/
def pullsNoMark : ℕ → Option (ℚ × ℤ) :=
  fun _ => some (0, -1)

/-- A stimulus that produces 0.0 twice and then stops (third pull
returns 0 samples). -/
def pullsDieAtTwo : ℕ → Option (ℚ × ℤ) :=
  fun k => if k < 2 then some (0, -1) else none

/-- An adapter state with a null stimulus and resolution 8 (as built
by `Stim2Dac(nullptr, 8)`). -/
def sNoStim : Stim2Dac :=
  ⟨none, 8, 256, 127⟩

/-- An adapter state as built by the default-like constructor call
`Stim2Dac(nullptr, 24)`. -/
def sBase : Stim2Dac :=
  ⟨none, 24, 16777216, 8388607⟩

/-- An adapter state with the mark-at-third-pull stimulus and
resolution 8. -/
def sMarkAtTwo : Stim2Dac :=
  ⟨some pullsMarkAtTwo, 8, 256, 127⟩

/-- An adapter state with the no-mark stimulus and resolution 8. -/
def sNoMark : Stim2Dac :=
  ⟨some pullsNoMark, 8, 256, 127⟩

/-- An adapter state with the dies-at-third-pull stimulus and
resolution 8. -/
def sDieAtTwo : Stim2Dac :=
  ⟨some pullsDieAtTwo, 8, 256, 127⟩

/-- The PureTone state produced by `setToneFrequency(100)` on a
default-constructed object (sampling rate still 1.0): the stale-able
derived state used by the C5 analysis.  Note `periodSize_samples` is
0: round(0.01) = 0. -/
noncomputable def cexC5a : PureTone :=
  ⟨0, 1, 100, 0, DOUBLE_PI * ((100 : ℚ) : ℝ) / ((1 : ℚ) : ℝ), 0⟩

/-- The state after additionally calling `setSamplingFrequency(8000)`
on `cexC5a`: the sampling rate changes but no derived field is
recomputed. -/
noncomputable def cexC5b : PureTone :=
  ⟨0, 8000, 100, 0, DOUBLE_PI * ((100 : ℚ) : ℝ) / ((1 : ℚ) : ℝ), 0⟩

/-- A 7500 Hz tone at 20 kHz sampling rate (reachable via
`setSamplingFrequency(20000)` then `setToneFrequency(7500)`):
stepArgument 2π·7500/20000 = 3π/4, periodSize_samples
round(20000/7500) = 3. -/
noncomputable def cexTone : PureTone :=
  ⟨0, 20000, 7500, 0, 3 * Real.pi / 4, 3⟩

/-- `cexTone` after one generate call of size 4: the position
wrapped to (0+4) mod 3 = 1. -/
noncomputable def cexMid : PureTone :=
  ⟨1, 20000, 7500, 0, 3 * Real.pi / 4, 3⟩

/-- A 100 Hz tone at 8 kHz sampling rate (reachable via
`setSamplingFrequency(8000)` then `setToneFrequency(100)`):
periodSize_samples 80. -/
noncomputable def toneW : PureTone :=
  ⟨0, 8000, 100, 0, DOUBLE_PI * ((100 : ℚ) : ℝ) / ((8000 : ℚ) : ℝ), 80⟩

end ASG

namespace ASG

/-- Ceiling of an integer shifted down by one half. -/
theorem ceil_intCast_sub_half (n : ℤ) : ⌈(n : ℚ) - 1 / 2⌉ = n := by
  rw [Int.ceil_eq_iff]
  constructor <;> linarith

/-- Evaluation rule for ASG::round on an in-range input. -/
theorem round_eq (x : ℚ) (z : ℤ) (h1 : (z : ℚ) - 1 < x - 1 / 2) (h2 : x - 1 / 2 ≤ z)
    (h3 : -(2 ^ 31) ≤ z) (h4 : z < 2 ^ 31) : ASG.round x = some z := by
  have hc : ⌈x - 1 / 2⌉ = z := Int.ceil_eq_iff.mpr ⟨h1, h2⟩
  unfold ASG.round intWcast
  rw [hc, if_neg]
  push_neg
  omega

/-- ASG::pow(2, bits) evaluates to 2^bits for bits ≤ 30 and is
undefined behaviour (float-to-int32 overflow) from 31 bits on. -/
theorem powInt_two (bits : ℕ) :
    powInt 2 bits = if bits ≤ 30 then some (2 ^ bits) else none := by
  have hcast : (((2 : ℕ) : ℚ) ^ bits) = (((2 : ℤ) ^ bits : ℤ) : ℚ) := by push_cast; ring
  unfold powInt ASG.round intWcast
  rw [hcast, ceil_intCast_sub_half]
  have hpos : (0 : ℤ) < 2 ^ bits := by positivity
  by_cases hb : bits ≤ 30
  · have hle : (2 : ℤ) ^ bits ≤ 2 ^ 30 := pow_le_pow_right₀ (by norm_num) hb
    rw [if_neg (by
      push_neg
      constructor
      · have : (0 : ℤ) ≤ 2 ^ (32 - 1) := by positivity
        linarith
      · have : (2 : ℤ) ^ 30 < 2 ^ (32 - 1) := by norm_num
        linarith), if_pos hb]
    have hlt : (2 : ℤ) ^ bits < 2 ^ 32 := by
      have : (2 : ℤ) ^ 30 < 2 ^ 32 := by norm_num
      linarith
    have hmod : (2 : ℤ) ^ bits % 2 ^ 32 = 2 ^ bits := Int.emod_eq_of_lt (by positivity) hlt
    simp only [Option.map_some']
    rw [hmod]
    congr 1
    rw [show ((2 : ℤ) ^ bits) = ((2 ^ bits : ℕ) : ℤ) by push_cast; ring, Int.toNat_natCast]
  · have h31 : (2 : ℤ) ^ 31 ≤ 2 ^ bits := pow_le_pow_right₀ (by norm_num) (by omega)
    rw [if_pos (by
      right
      have : (2 : ℤ) ^ (32 - 1) = 2 ^ 31 := by norm_num
      linarith), if_neg hb]
    rfl

/-- uint32 subtraction of 1 is ordinary subtraction below 2^32. -/
theorem sub32_one (m : ℕ) (h1 : 1 ≤ m) (h2 : m ≤ 2 ^ 31) : sub32 m 1 = m - 1 := by
  unfold sub32
  omega

/-- The floor bounds truncation toward zero from below. -/
theorem floor_le_ratTrunc (q : ℚ) : ⌊q⌋ ≤ ratTrunc q := by
  unfold ratTrunc
  split
  · exact Int.floor_le_ceil q
  · exact le_refl _

/-- The ceiling bounds truncation toward zero from above. -/
theorem ratTrunc_le_ceil (q : ℚ) : ratTrunc q ≤ ⌈q⌉ := by
  unfold ratTrunc
  split
  · exact le_refl _
  · exact Int.floor_le_ceil q

/-- The unsigned per-sample conversion is defined (no UB) on
normalised samples, for the dynamic range of any committed
resolution, and fits the target width without wrapping. -/
theorem quantUnsigned_eq (bits w : ℕ) (v : ℚ) (hb : bits ≤ 30) (h1 : -1 ≤ v) (h2 : v ≤ 1) :
    quantUnsigned (2 ^ bits) w v = some (⌈(v + 1) / 2 * ((2 ^ bits - 1 : ℕ) : ℚ) - 1 / 2⌉ % 2 ^ w)
    ∧ 0 ≤ ⌈(v + 1) / 2 * ((2 ^ bits - 1 : ℕ) : ℚ) - 1 / 2⌉
    ∧ ⌈(v + 1) / 2 * ((2 ^ bits - 1 : ℕ) : ℚ) - 1 / 2⌉ ≤ ((2 ^ bits - 1 : ℕ) : ℤ) := by
  have hsub : sub32 (2 ^ bits) 1 = 2 ^ bits - 1 := by
    apply sub32_one
    · exact Nat.one_le_two_pow
    · exact Nat.pow_le_pow_right (by norm_num) (by omega)
  have harg0 : (0 : ℚ) ≤ (v + 1) / 2 * ((2 ^ bits - 1 : ℕ) : ℚ) := by
    apply mul_nonneg (by linarith) (by positivity)
  have harg1 : (v + 1) / 2 * ((2 ^ bits - 1 : ℕ) : ℚ) ≤ ((2 ^ bits - 1 : ℕ) : ℚ) := by
    apply mul_le_of_le_one_left (by positivity)
    linarith
  have hz0 : (0 : ℤ) ≤ ⌈(v + 1) / 2 * ((2 ^ bits - 1 : ℕ) : ℚ) - 1 / 2⌉ := by
    have hle : ⌈(-(1 : ℚ)) / 2⌉ ≤ ⌈(v + 1) / 2 * ((2 ^ bits - 1 : ℕ) : ℚ) - 1 / 2⌉ :=
      Int.ceil_le_ceil (by linarith)
    have hc : ⌈(-(1 : ℚ)) / 2⌉ = 0 := by
      rw [Int.ceil_eq_zero_iff]
      constructor <;> norm_num
    omega
  have hzN : ⌈(v + 1) / 2 * ((2 ^ bits - 1 : ℕ) : ℚ) - 1 / 2⌉ ≤ ((2 ^ bits - 1 : ℕ) : ℤ) := by
    have hle : ⌈(v + 1) / 2 * ((2 ^ bits - 1 : ℕ) : ℚ) - 1 / 2⌉ ≤ ⌈((2 ^ bits - 1 : ℕ) : ℚ)⌉ :=
      Int.ceil_le_ceil (by linarith)
    rwa [Int.ceil_natCast] at hle
  have hN31 : ((2 ^ bits - 1 : ℕ) : ℤ) < 2 ^ (32 - 1) := by
    have hnat : (2 ^ bits - 1 : ℕ) < 2 ^ 31 := by
      have := Nat.pow_le_pow_right (show 0 < 2 by norm_num) hb
      have h30 : (2 : ℕ) ^ 30 < 2 ^ 31 := by norm_num
      omega
    exact_mod_cast hnat
  have hpow0 : (0 : ℤ) ≤ 2 ^ (32 - 1) := by positivity
  refine ⟨?_, hz0, hzN⟩
  unfold quantUnsigned ASG.round intWcast
  rw [hsub, if_neg (by push_neg; constructor <;> linarith)]
  rfl

/-- The signed per-sample conversion is defined (no UB) on
normalised samples whenever the committed resolution does not exceed
the target width, and needs no truncating cast. -/
theorem quantSigned_eq (bits w : ℕ) (v : ℚ) (hb1 : 1 ≤ bits) (hbw : bits ≤ w)
    (h1 : -1 ≤ v) (h2 : v ≤ 1) :
    quantSigned (2 ^ (bits - 1) - 1) w v = some (ratTrunc (v * ((2 ^ (bits - 1) - 1 : ℕ) : ℚ)))
    ∧ -(((2 ^ (bits - 1) - 1 : ℕ) : ℤ)) ≤ ratTrunc (v * ((2 ^ (bits - 1) - 1 : ℕ) : ℚ))
    ∧ ratTrunc (v * ((2 ^ (bits - 1) - 1 : ℕ) : ℚ)) ≤ ((2 ^ (bits - 1) - 1 : ℕ) : ℤ) := by
  have hS0 : (0 : ℚ) ≤ ((2 ^ (bits - 1) - 1 : ℕ) : ℚ) := by positivity
  have hup : v * ((2 ^ (bits - 1) - 1 : ℕ) : ℚ) ≤ ((2 ^ (bits - 1) - 1 : ℕ) : ℚ) := by
    nlinarith
  have hlo : -(((2 ^ (bits - 1) - 1 : ℕ) : ℚ)) ≤ v * ((2 ^ (bits - 1) - 1 : ℕ) : ℚ) := by
    nlinarith
  have htup : ratTrunc (v * ((2 ^ (bits - 1) - 1 : ℕ) : ℚ)) ≤ ((2 ^ (bits - 1) - 1 : ℕ) : ℤ) := by
    have hu := ratTrunc_le_ceil (v * ((2 ^ (bits - 1) - 1 : ℕ) : ℚ))
    have hcc : ⌈v * ((2 ^ (bits - 1) - 1 : ℕ) : ℚ)⌉ ≤ ⌈((2 ^ (bits - 1) - 1 : ℕ) : ℚ)⌉ :=
      Int.ceil_le_ceil hup
    rw [Int.ceil_natCast] at hcc
    omega
  have htlo : -(((2 ^ (bits - 1) - 1 : ℕ) : ℤ)) ≤ ratTrunc (v * ((2 ^ (bits - 1) - 1 : ℕ) : ℚ)) := by
    have hl := floor_le_ratTrunc (v * ((2 ^ (bits - 1) - 1 : ℕ) : ℚ))
    have hff : ⌊-(((2 ^ (bits - 1) - 1 : ℕ) : ℚ))⌋ ≤ ⌊v * ((2 ^ (bits - 1) - 1 : ℕ) : ℚ)⌋ :=
      Int.floor_le_floor hlo
    have hfc : ⌊-(((2 ^ (bits - 1) - 1 : ℕ) : ℚ))⌋ = -(((2 ^ (bits - 1) - 1 : ℕ) : ℤ)) := by
      rw [show -(((2 ^ (bits - 1) - 1 : ℕ) : ℚ)) = ((-((2 ^ (bits - 1) - 1 : ℕ) : ℤ) : ℤ) : ℚ) by
        push_cast; ring]
      exact Int.floor_intCast _
    omega
  have hSw : ((2 ^ (bits - 1) - 1 : ℕ) : ℤ) < 2 ^ (w - 1) := by
    have h1' : (2 ^ (bits - 1) : ℕ) ≤ 2 ^ (w - 1) := Nat.pow_le_pow_right (by norm_num) (by omega)
    have hnat : (2 ^ (bits - 1) - 1 : ℕ) < 2 ^ (w - 1) := by
      have hone : 1 ≤ (2 ^ (bits - 1) : ℕ) := Nat.one_le_two_pow
      omega
    calc ((2 ^ (bits - 1) - 1 : ℕ) : ℤ) < ((2 ^ (w - 1) : ℕ) : ℤ) := by exact_mod_cast hnat
    _ = 2 ^ (w - 1) := by push_cast; ring
  refine ⟨?_, htlo, htup⟩
  unfold quantSigned intWcast
  rw [if_neg (by push_neg; constructor <;> linarith)]

/-- One evaluation step of the adapter loop is irrelevant here; what
matters is the abort shape: if the first `k` pulls (from `index` on)
succeed and quantise, and pull `index + k` returns 0 samples, the
loop returns `index + k` having appended exactly `k` samples. -/
theorem dacLoop_abort (pulls : ℕ → Option (ℚ × ℤ)) (quant : ℚ → Option ℤ) (useIndex : Bool) :
    ∀ (k remaining index : ℕ) (buf : List ℤ) (sy : Option ℤ) (found : Bool),
      (∀ j, j < k → ∃ v st q, pulls (index + j) = some (v, st) ∧ quant v = some q) →
      pulls (index + k) = none → k < remaining →
      ∃ buf2 sy2, dacLoop pulls quant useIndex remaining index buf sy found =
          some ⟨index + k, buf2, sy2⟩ ∧ buf2.length = buf.length + k := by
  intro k
  induction k with
  | zero =>
    intro remaining index buf sy found _ hnone hlt
    obtain ⟨r, rfl⟩ : ∃ r, remaining = r + 1 := ⟨remaining - 1, by omega⟩
    have h0 : pulls index = none := by simpa using hnone
    refine ⟨buf, sy, ?_, by omega⟩
    simp [dacLoop, h0]
  | succ k ih =>
    intro remaining index buf sy found hsome hnone hlt
    obtain ⟨r, rfl⟩ : ∃ r, remaining = r + 1 := ⟨remaining - 1, by omega⟩
    obtain ⟨v, st, q, hp, hq⟩ := hsome 0 (by omega)
    have hp' : pulls index = some (v, st) := by simpa using hp
    have hshift : ∀ j, j < k → ∃ v' st' q', pulls (index + 1 + j) = some (v', st')
        ∧ quant v' = some q' := by
      intro j hj
      obtain ⟨v', st', q', h1', h2'⟩ := hsome (j + 1) (by omega)
      exact ⟨v', st', q', by rw [show index + 1 + j = index + (j + 1) by omega]; exact h1', h2'⟩
    have hnone' : pulls (index + 1 + k) = none := by
      rw [show index + 1 + k = index + (k + 1) by omega]
      exact hnone
    simp only [dacLoop, hp', hq]
    split
    · obtain ⟨buf2, sy2, heq, hlen⟩ :=
        ih r (index + 1) (buf ++ [q]) (some (if useIndex then (index : ℤ) else st)) true
          hshift hnone' (by omega)
      rw [show index + 1 + k = index + (k + 1) by omega] at heq
      refine ⟨buf2, sy2, heq, ?_⟩
      simp at hlen
      omega
    · obtain ⟨buf2, sy2, heq, hlen⟩ :=
        ih r (index + 1) (buf ++ [q]) sy found hshift hnone' (by omega)
      rw [show index + 1 + k = index + (k + 1) by omega] at heq
      refine ⟨buf2, sy2, heq, ?_⟩
      simp at hlen
      omega

end ASG

namespace ASG

/-- The adapter constructor with resolution 8 yields dynamic range
256 and scale factor 127. -/
theorem mkStim_eight (st : Option (ℕ → Option (ℚ × ℤ))) :
    Stim2Dac.mkStim st 8 = some ⟨st, 8, 256, 127⟩ := by
  unfold Stim2Dac.mkStim Stim2Dac.setDacResolution
  rw [powInt_two, if_pos (by norm_num)]
  simp only [Option.map_some', Option.some_inj]
  norm_num [sub32]

/-- Evaluation rule for the unsigned conversion at dynamic range 256. -/
theorem quantU_eval (w : ℕ) (v : ℚ) (z : ℤ) (h1 : (z : ℚ) - 1 < (v + 1) / 2 * 255 - 1 / 2)
    (h2 : (v + 1) / 2 * 255 - 1 / 2 ≤ z) (h3 : 0 ≤ z) (h4 : z < 2 ^ w) (h5 : z < 2 ^ 31) :
    quantUnsigned 256 w v = some z := by
  unfold quantUnsigned
  rw [show (sub32 256 1 : ℕ) = 255 from by norm_num [sub32],
    show ((255 : ℕ) : ℚ) = 255 from by norm_num,
    round_eq ((v + 1) / 2 * 255) z h1 h2 (by omega) (by omega)]
  simp only [Option.map_some', Option.some_inj]
  exact Int.emod_eq_of_lt h3 h4

/-- Truncation toward zero of an integer is itself. -/
theorem ratTrunc_intCast (z : ℤ) : ratTrunc ((z : ℤ) : ℚ) = z := by
  unfold ratTrunc
  split
  · exact Int.ceil_intCast z
  · exact Int.floor_intCast z

/-- Evaluation rule for the signed conversion at scale factor 127. -/
theorem quantS_eval (w : ℕ) (v : ℚ) (z : ℤ) (hv : v * 127 = ((z : ℤ) : ℚ))
    (h3 : -(2 ^ (w - 1)) ≤ z) (h4 : z < 2 ^ (w - 1)) :
    quantSigned 127 w v = some z := by
  unfold quantSigned intWcast
  rw [show v * ((127 : ℕ) : ℚ) = ((z : ℤ) : ℚ) from by push_cast at hv ⊢; linarith,
    ratTrunc_intCast, if_neg (by push_neg; omega)]

/-- The unsigned conversion of the sample 0.0 under resolution 8,
width 16: the mid-scale code 127. -/
theorem quantU16_zero : quantUnsigned 256 16 0 = some 127 :=
  quantU_eval 16 0 127 (by norm_num) (by norm_num) (by norm_num) (by norm_num) (by norm_num)

/-- The adapter loop abort lemma specialised to a full call
(starting index 0, empty buffer). -/
theorem dacLoop_abort_call (pulls : ℕ → Option (ℚ × ℤ)) (quant : ℚ → Option ℤ)
    (useIndex : Bool) (k size : ℕ) (sy0 : Option ℤ)
    (hpull : ∀ j, j < k → ∃ v st q, pulls j = some (v, st) ∧ quant v = some q)
    (hfail : pulls k = none) (hks : k < size) :
    ∃ buf2 sy2, dacLoop pulls quant useIndex size 0 [] sy0 false = some ⟨k, buf2, sy2⟩
      ∧ buf2.length = k := by
  have h := dacLoop_abort pulls quant useIndex k size 0 [] sy0 false
    (fun j hj => by simpa using hpull j hj) (by simpa using hfail) hks
  simpa using h

end ASG

namespace ASG

/-- C1 counterexample: the claim asserts every overload returns 0
when the stimulus reference is null, but the int32 overload's guard
does not check the stimulus: `Stim2Dac(nullptr, 8)` followed by
`generate(int32buffer, 2, sync)` passes the guard and dereferences
the null pointer (undefined behaviour, `none`), instead of
returning 0. -/
theorem C1_counterexample :
    Stim2Dac.mkStim none 8 = some sNoStim
    ∧ sNoStim.dacResolution ≤ 32
    ∧ Stim2Dac.generateI32 sNoStim false 2 = none := by
  refine ⟨mkStim_eight none, by norm_num [sNoStim], by decide⟩

/-- C1 (amended): every Stim2Dac::generate overload returns 0 and
writes nothing when the buffer pointer is null or when
`dacResolution` exceeds the width of the target element type (32,
16, or 8); the uint32 overload additionally returns 0 when the
stimulus reference is null or when `size <= 1`.  (The five other
overloads do not check the stimulus pointer.) -/
theorem C1_guards (s : Stim2Dac) (size : ℕ) (b : Bool) :
    ((b = true ∨ s.stimuli = none ∨ 32 < s.dacResolution ∨ size ≤ 1) →
      Stim2Dac.generateU32 s b size = some ⟨0, [], none⟩)
    ∧ ((b = true ∨ 32 < s.dacResolution) → Stim2Dac.generateI32 s b size = some ⟨0, [], none⟩)
    ∧ ((b = true ∨ 16 < s.dacResolution) → Stim2Dac.generateU16 s b size = some ⟨0, [], none⟩)
    ∧ ((b = true ∨ 16 < s.dacResolution) → Stim2Dac.generateI16 s b size = some ⟨0, [], none⟩)
    ∧ ((b = true ∨ 8 < s.dacResolution) → Stim2Dac.generateU8 s b size = some ⟨0, [], none⟩)
    ∧ ((b = true ∨ 8 < s.dacResolution) → Stim2Dac.generateI8 s b size = some ⟨0, [], none⟩) := by
    refine ⟨?_, ?_, ?_, ?_, ?_, ?_⟩ <;> intro h
    · rcases h with h | h | h | h <;>
        simp [Stim2Dac.generateU32, h]
    · rcases h with h | h <;> simp [Stim2Dac.generateI32, h]
    · rcases h with h | h <;> simp [Stim2Dac.generateU16, h]
    · rcases h with h | h <;> simp [Stim2Dac.generateI16, h]
    · rcases h with h | h <;> simp [Stim2Dac.generateU8, h]
    · rcases h with h | h <;> simp [Stim2Dac.generateI8, h]

/-- C1 witness: the guards fire on a concrete adapter with null
stimulus, resolution 33, null buffer and size 0. -/
theorem C1_guards_witness :
    Stim2Dac.generateU32 ⟨none, 33, 0, 0⟩ true 0 = some ⟨0, [], none⟩
    ∧ Stim2Dac.generateI32 ⟨none, 33, 0, 0⟩ true 0 = some ⟨0, [], none⟩
    ∧ Stim2Dac.generateU16 ⟨none, 33, 0, 0⟩ true 0 = some ⟨0, [], none⟩
    ∧ Stim2Dac.generateI16 ⟨none, 33, 0, 0⟩ true 0 = some ⟨0, [], none⟩
    ∧ Stim2Dac.generateU8 ⟨none, 33, 0, 0⟩ true 0 = some ⟨0, [], none⟩
    ∧ Stim2Dac.generateI8 ⟨none, 33, 0, 0⟩ true 0 = some ⟨0, [], none⟩ := by
  have h := C1_guards ⟨none, 33, 0, 0⟩ 0 true
  exact ⟨h.1 (Or.inl rfl), h.2.1 (Or.inr (by norm_num)), h.2.2.1 (Or.inr (by norm_num)),
    h.2.2.2.1 (Or.inl rfl), h.2.2.2.2.1 (Or.inr (by norm_num)),
    h.2.2.2.2.2 (Or.inl rfl)⟩

/-- C2: evaluating the uint16 overload at a passing call shows both
divergences from the claim.  With a stimulus whose third
single-sample pull carries the mark (`syncTmp = 0`), the call writes
`sync = 0` (the pulled `syncTmp`, which is always 0 for a
single-sample pull) instead of the in-buffer index 2 of the marked
sample; and with a stimulus that never marks, the call leaves `sync`
unwritten (result field `none`) instead of writing -1. -/
theorem C2_sync_divergence :
    Stim2Dac.generateU16 sMarkAtTwo false 4 = some ⟨4, [127, 127, 127, 127], some 0⟩
    ∧ (0 : ℤ) ≠ 2
    ∧ Stim2Dac.generateU16 sNoMark false 4 = some ⟨4, [127, 127, 127, 127], none⟩ := by
  refine ⟨?_, by norm_num, ?_⟩
  · simp [Stim2Dac.generateU16, sMarkAtTwo, dacLoop, pullsMarkAtTwo, quantU16_zero]
  · simp [Stim2Dac.generateU16, sNoMark, dacLoop, pullsNoMark, quantU16_zero]

/-- C3: early abort on underlying failure, for every overload.  If
the constructor committed resolution `bits` (1 ≤ bits), the first
`k` single-sample pulls succeed with normalised values, and pull
`k` (0-based; the (k+1)-th pull) returns 0 samples, then any
precondition-passing generate call of size > k returns exactly `k`,
with exactly `k` buffer slots filled. -/
theorem C3_early_abort (pulls : ℕ → Option (ℚ × ℤ)) (s : Stim2Dac) (bits k size : ℕ)
    (hb1 : 1 ≤ bits)
    (hmk : Stim2Dac.mkStim (some pulls) bits = some s)
    (hpull : ∀ j, j < k → ∃ v st, pulls j = some (v, st) ∧ -1 ≤ v ∧ v ≤ 1)
    (hfail : pulls k = none) (hks : k < size) :
    (2 ≤ size →
      (Stim2Dac.generateU32 s false size).map DacGenResult.retval = some k
      ∧ (Stim2Dac.generateU32 s false size).map (fun r => r.buffer.length) = some k)
    ∧ ((Stim2Dac.generateI32 s false size).map DacGenResult.retval = some k
      ∧ (Stim2Dac.generateI32 s false size).map (fun r => r.buffer.length) = some k)
    ∧ (bits ≤ 16 →
      ((Stim2Dac.generateU16 s false size).map DacGenResult.retval = some k
        ∧ (Stim2Dac.generateU16 s false size).map (fun r => r.buffer.length) = some k)
      ∧ ((Stim2Dac.generateI16 s false size).map DacGenResult.retval = some k
        ∧ (Stim2Dac.generateI16 s false size).map (fun r => r.buffer.length) = some k))
    ∧ (bits ≤ 8 →
      ((Stim2Dac.generateU8 s false size).map DacGenResult.retval = some k
        ∧ (Stim2Dac.generateU8 s false size).map (fun r => r.buffer.length) = some k)
      ∧ ((Stim2Dac.generateI8 s false size).map DacGenResult.retval = some k
        ∧ (Stim2Dac.generateI8 s false size).map (fun r => r.buffer.length) = some k)) := by
  unfold Stim2Dac.mkStim Stim2Dac.setDacResolution at hmk
  rw [powInt_two] at hmk
  by_cases hb30 : bits ≤ 30
  case neg =>
    rw [if_neg hb30] at hmk
    simp at hmk
  rw [if_pos hb30] at hmk
  simp only [Option.map_some', Option.some_inj] at hmk
  have hdiv : (2 : ℕ) ^ bits / 2 = 2 ^ (bits - 1) := by
    rw [show bits = (bits - 1) + 1 from by omega, pow_succ]
    simp [Nat.mul_div_cancel]
  have hscale : sub32 (2 ^ bits / 2) 1 = 2 ^ (bits - 1) - 1 := by
    rw [hdiv]
    exact sub32_one _ Nat.one_le_two_pow (Nat.pow_le_pow_right (by norm_num) (by omega))
  rw [hscale] at hmk
  subst hmk
  have hpullU : ∀ w, ∀ j, j < k → ∃ v st q, pulls j = some (v, st)
      ∧ quantUnsigned (2 ^ bits) w v = some q := by
    intro w j hj
    obtain ⟨v, st, hp, hv1, hv2⟩ := hpull j hj
    exact ⟨v, st, _, hp, (quantUnsigned_eq bits w v hb30 hv1 hv2).1⟩
  have hpullS : ∀ w, bits ≤ w → ∀ j, j < k → ∃ v st q, pulls j = some (v, st)
      ∧ quantSigned (2 ^ (bits - 1) - 1) w v = some q := by
    intro w hw j hj
    obtain ⟨v, st, hp, hv1, hv2⟩ := hpull j hj
    exact ⟨v, st, _, hp, (quantSigned_eq bits w v hb1 hw hv1 hv2).1⟩
  refine ⟨?_, ?_, ?_, ?_⟩
  · intro hsz
    obtain ⟨buf2, sy2, heq, hlen⟩ :=
      dacLoop_abort_call pulls (quantUnsigned (2 ^ bits) 32) true k size none
        (hpullU 32) hfail hks
    have hgen : Stim2Dac.generateU32 ⟨some pulls, bits, 2 ^ bits, 2 ^ (bits - 1) - 1⟩ false size
        = some ⟨k, buf2, sy2⟩ := by
      rw [Stim2Dac.generateU32, if_neg (by simp; omega)]
      exact heq
    rw [hgen]
    simp [hlen]
  · obtain ⟨buf2, sy2, heq, hlen⟩ :=
      dacLoop_abort_call pulls (quantSigned (2 ^ (bits - 1) - 1) 32) true k size (some (-1))
        (hpullS 32 (by omega)) hfail hks
    have hgen : Stim2Dac.generateI32 ⟨some pulls, bits, 2 ^ bits, 2 ^ (bits - 1) - 1⟩ false size
        = some ⟨k, buf2, sy2⟩ := by
      rw [Stim2Dac.generateI32, if_neg (by simp; omega)]
      exact heq
    rw [hgen]
    simp [hlen]
  · intro h16
    constructor
    · obtain ⟨buf2, sy2, heq, hlen⟩ :=
        dacLoop_abort_call pulls (quantUnsigned (2 ^ bits) 16) false k size none
          (hpullU 16) hfail hks
      have hgen : Stim2Dac.generateU16 ⟨some pulls, bits, 2 ^ bits, 2 ^ (bits - 1) - 1⟩ false size
          = some ⟨k, buf2, sy2⟩ := by
        rw [Stim2Dac.generateU16, if_neg (by simp; omega)]
        exact heq
      rw [hgen]
      simp [hlen]
    · obtain ⟨buf2, sy2, heq, hlen⟩ :=
        dacLoop_abort_call pulls (quantSigned (2 ^ (bits - 1) - 1) 16) false k size none
          (hpullS 16 h16) hfail hks
      have hgen : Stim2Dac.generateI16 ⟨some pulls, bits, 2 ^ bits, 2 ^ (bits - 1) - 1⟩ false size
          = some ⟨k, buf2, sy2⟩ := by
        rw [Stim2Dac.generateI16, if_neg (by simp; omega)]
        exact heq
      rw [hgen]
      simp [hlen]
  · intro h8
    constructor
    · obtain ⟨buf2, sy2, heq, hlen⟩ :=
        dacLoop_abort_call pulls (quantUnsigned (2 ^ bits) 8) false k size none
          (hpullU 8) hfail hks
      have hgen : Stim2Dac.generateU8 ⟨some pulls, bits, 2 ^ bits, 2 ^ (bits - 1) - 1⟩ false size
          = some ⟨k, buf2, sy2⟩ := by
        rw [Stim2Dac.generateU8, if_neg (by simp; omega)]
        exact heq
      rw [hgen]
      simp [hlen]
    · obtain ⟨buf2, sy2, heq, hlen⟩ :=
        dacLoop_abort_call pulls (quantSigned (2 ^ (bits - 1) - 1) 8) false k size none
          (hpullS 8 h8) hfail hks
      have hgen : Stim2Dac.generateI8 ⟨some pulls, bits, 2 ^ bits, 2 ^ (bits - 1) - 1⟩ false size
          = some ⟨k, buf2, sy2⟩ := by
        rw [Stim2Dac.generateI8, if_neg (by simp; omega)]
        exact heq
      rw [hgen]
      simp [hlen]

/-- C3 witness: the spec's own example.  A stimulus that fails on
its third single-sample pull makes a size-10 adapter call return 2
(shown on the uint32 and uint16 overloads of a resolution-8
adapter). -/
theorem C3_early_abort_witness :
    (Stim2Dac.generateU32 sDieAtTwo false 10).map DacGenResult.retval = some 2
    ∧ (Stim2Dac.generateU16 sDieAtTwo false 10).map DacGenResult.retval = some 2 := by
  have hmk : Stim2Dac.mkStim (some pullsDieAtTwo) 8 = some sDieAtTwo := mkStim_eight _
  have hpull : ∀ j, j < 2 → ∃ v st, pullsDieAtTwo j = some (v, st) ∧ -1 ≤ v ∧ v ≤ 1 := by
    intro j hj
    interval_cases j <;> exact ⟨0, -1, rfl, by norm_num, by norm_num⟩
  have h := C3_early_abort pullsDieAtTwo sDieAtTwo 8 2 10 (by norm_num) hmk hpull rfl
    (by norm_num)
  exact ⟨(h.1 (by norm_num)).1, (h.2.2.1 (by norm_num)).1.1⟩

end ASG

namespace ASG

/-- C4: with dacResolution 8 (dynamicRange 256, scaleFactor 127) the
unsigned conversion maps 0.0 to 127, 1.0 to 255 and -1.0 to 0, and
the signed conversion maps 1.0 to 127 and -1.0 to -127; generally,
on normalised samples the unsigned path computes
`ceil((x+1)/2 * (dynamicRange-1) - 1/2)` (ASG::round, half rounds
down) and the signed path truncates `x * scaleFactor` toward zero,
with no wrap in either target. -/
theorem C4_quantization :
    Stim2Dac.setDacResolution sBase 8 = some sNoStim
    ∧ sNoStim.dynamicRange = 256
    ∧ sNoStim.dynamicRangeToScale = 127
    ∧ quantUnsigned sNoStim.dynamicRange 8 0 = some 127
    ∧ quantUnsigned sNoStim.dynamicRange 8 1 = some 255
    ∧ quantUnsigned sNoStim.dynamicRange 8 (-1) = some 0
    ∧ quantSigned sNoStim.dynamicRangeToScale 8 1 = some 127
    ∧ quantSigned sNoStim.dynamicRangeToScale 8 (-1) = some (-127)
    ∧ (∀ v : ℚ, -1 ≤ v → v ≤ 1 →
        quantUnsigned 256 8 v = some ⌈(v + 1) / 2 * 255 - 1 / 2⌉
        ∧ quantSigned 127 8 v = some (ratTrunc (v * 127))) := by
  refine ⟨?_, rfl, rfl,
    quantU_eval 8 0 127 (by norm_num) (by norm_num) (by norm_num) (by norm_num) (by norm_num),
    quantU_eval 8 1 255 (by norm_num) (by norm_num) (by norm_num) (by norm_num) (by norm_num),
    quantU_eval 8 (-1) 0 (by norm_num) (by norm_num) (by norm_num) (by norm_num) (by norm_num),
    quantS_eval 8 1 127 (by push_cast; ring) (by norm_num) (by norm_num),
    quantS_eval 8 (-1) (-127) (by push_cast; ring) (by norm_num) (by norm_num), ?_⟩
  · unfold Stim2Dac.setDacResolution
    rw [powInt_two, if_pos (by norm_num)]
    simp only [Option.map_some', Option.some_inj]
    norm_num [sub32, sBase, sNoStim]
  · intro v hv1 hv2
    have hu := quantUnsigned_eq 8 8 v (by norm_num) hv1 hv2
    rw [show ((2 ^ 8 - 1 : ℕ) : ℚ) = 255 from by norm_num] at hu
    have hs := quantSigned_eq 8 8 v (by norm_num) (by norm_num) hv1 hv2
    rw [show ((2 ^ (8 - 1) - 1 : ℕ) : ℚ) = 127 from by norm_num] at hs
    obtain ⟨hueq, hu0, huN⟩ := hu
    obtain ⟨hseq, _, _⟩ := hs
    refine ⟨?_, ?_⟩
    · rw [show (256 : ℕ) = 2 ^ 8 from by norm_num, hueq]
      congr 1
      apply Int.emod_eq_of_lt hu0
      rw [show ((2 ^ 8 - 1 : ℕ) : ℤ) = 255 from by norm_num] at huN
      omega
    · rw [show (127 : ℕ) = 2 ^ (8 - 1) - 1 from by norm_num, hseq]

/-- C4 witness: the general quantisation rules applied at the
normalised sample 1/2. -/
theorem C4_quantization_witness :
    (-1 : ℚ) ≤ 1 / 2 ∧ (1 / 2 : ℚ) ≤ 1
    ∧ quantUnsigned 256 8 (1 / 2) = some ⌈((1 : ℚ) / 2 + 1) / 2 * 255 - 1 / 2⌉
    ∧ quantSigned 127 8 (1 / 2) = some (ratTrunc ((1 / 2 : ℚ) * 127)) := by
  have h := C4_quantization.2.2.2.2.2.2.2.2 (1 / 2) (by norm_num) (by norm_num)
  exact ⟨by norm_num, by norm_num, h.1, h.2⟩

/-- C9 counterexample: the claim covers every bits in 1..32, but
setDacResolution(31) and setDacResolution(32) run
`ASG::round(std::pow(2.f, bits))` whose float-to-int32 conversion
overflows (ceil result 2^31 resp. 2^32 is not representable in
int32): undefined behaviour, not `dynamicRange = 2^bits`. -/
theorem C9_counterexample :
    Stim2Dac.setDacResolution sBase 31 = none
    ∧ Stim2Dac.setDacResolution sBase 32 = none := by
  constructor <;>
    (unfold Stim2Dac.setDacResolution; rw [powInt_two, if_neg (by norm_num)]; rfl)

/-- C9 (amended): for every bits in 1..30, after setDacResolution
the adapter state satisfies `dynamicRange = 2^bits` and
`scaleFactor = 2^(bits-1) - 1` (and the stimulus reference is kept);
for bits 31 and 32 the recomputation is undefined behaviour. -/
theorem C9_setDacResolution (s : Stim2Dac) (bits : ℕ) (h1 : 1 ≤ bits) (h2 : bits ≤ 30) :
    ∃ s2, Stim2Dac.setDacResolution s bits = some s2
      ∧ s2.dacResolution = bits
      ∧ s2.dynamicRange = 2 ^ bits
      ∧ s2.dynamicRangeToScale = 2 ^ (bits - 1) - 1
      ∧ s2.stimuli = s.stimuli := by
  unfold Stim2Dac.setDacResolution
  rw [powInt_two, if_pos h2]
  simp only [Option.map_some']
  refine ⟨_, rfl, rfl, rfl, ?_, rfl⟩
  show sub32 (2 ^ bits / 2) 1 = 2 ^ (bits - 1) - 1
  have hdiv : (2 : ℕ) ^ bits / 2 = 2 ^ (bits - 1) := by
    rw [show bits = (bits - 1) + 1 from by omega, pow_succ]
    simp [Nat.mul_div_cancel]
  rw [hdiv]
  exact sub32_one _ Nat.one_le_two_pow (Nat.pow_le_pow_right (by norm_num) (by omega))

/-- C9 witness: resolution 8 gives dynamic range 256 and scale
factor 127. -/
theorem C9_setDacResolution_witness :
    ∃ s2, Stim2Dac.setDacResolution sBase 8 = some s2
      ∧ s2.dacResolution = 8
      ∧ s2.dynamicRange = 2 ^ 8
      ∧ s2.dynamicRangeToScale = 2 ^ (8 - 1) - 1
      ∧ s2.stimuli = sBase.stimuli :=
  C9_setDacResolution sBase 8 (by norm_num) (by norm_num)

end ASG

namespace ASG

/-- Inversion rule for ASG::round: a defined result is the
half-down-rounded ceiling, inside int32 range. -/
theorem round_some (x : ℚ) (z : ℤ) (h : ASG.round x = some z) :
    z = ⌈x - 1 / 2⌉ ∧ -(2 ^ 31) ≤ z ∧ z < 2 ^ 31 := by
  unfold ASG.round intWcast at h
  split at h
  · exact absurd h (by simp)
  · next hc =>
    push_neg at hc
    obtain ⟨h1, h2⟩ := hc
    obtain rfl : ⌈x - 1 / 2⌉ = z := by simpa using h
    refine ⟨rfl, by omega, by omega⟩

/-- Evaluation rule for a passing PureTone::generate call (with
nonzero period: otherwise the call divides by zero). -/
theorem PureTone.generate_some (s : PureTone) (size : ℕ) (h1 : size ≠ 0)
    (h2 : s.toneFrequency ≠ 0) (h3 : s.samplingFrequency ≠ 0)
    (h4 : s.periodSize_samples ≠ 0) :
    PureTone.generate s false size = some ⟨size,
      (List.range size).map
        (fun i => Real.sin (s.stepArgument * ((s.position + i : ℕ) : ℝ) + s.phase)),
      some (PureTone.syncOf s.position s.periodSize_samples size),
      { s with position := s.nextPosition size }⟩ := by
  unfold PureTone.generate
  rw [if_neg (by simp [h1, h2, h3]), if_neg h4]

/-- Evaluation rule for a successful PureTone::setToneFrequency
call whose seconds2samples stays in the int32 range. -/
theorem setToneFrequency_eval (s : PureTone) (f : ℚ) (z : ℤ)
    (hc : ¬(f ≤ MIN_GENERATABLE_FREQUENCY ∨ MAX_GENERATABLE_FREQUENCY ≤ f))
    (hround : ASG.round (1 / f * s.samplingFrequency) = some z)
    (hz0 : 0 ≤ z) (hz32 : z < 2 ^ 31) :
    PureTone.setToneFrequency s (some f) = some (true,
      ⟨s.position, s.samplingFrequency, f, s.phase,
       DOUBLE_PI * ((f : ℚ) : ℝ) / ((s.samplingFrequency : ℚ) : ℝ), z.toNat⟩) := by
  simp only [PureTone.setToneFrequency, if_neg hc]
  simp only [seconds2samples, PureTone.getPeriod_secs, PureTone.setStepArgument, hround,
    Option.map_some']
  have h64 : z % 2 ^ 64 = z := Int.emod_eq_of_lt hz0 (by omega)
  have h32 : z.toNat < 2 ^ 32 := by omega
  rw [h64, Nat.mod_eq_of_lt h32]

end ASG

namespace ASG

/-- Ceiling of -1/2 is 0 (used to bound ASG::round results from
below on positive arguments). -/
theorem ceil_neg_half : ⌈(-1 : ℚ) / 2⌉ = 0 := by
  rw [Int.ceil_eq_zero_iff, Set.mem_Ioc]
  constructor <;> norm_num

/-- C5 counterexample: starting from a default-constructed PureTone,
`setToneFrequency(100)` (at the default sampling rate 1.0) then
`setSamplingFrequency(8000)` reaches a state with valid tone
frequency 100 and sampling rate 8000 in which neither derived field
satisfies the claimed invariant: `stepArgument` is still
2π·100/1 (not 2π·100/8000), and `periodSize_samples` is still 0
(not round(8000/100) = 80), because setSamplingFrequency recomputes
nothing. -/
theorem C5_counterexample :
    PureTone.setToneFrequency PureTone.init (some 100) = some (true, cexC5a)
    ∧ PureTone.setSamplingFrequency cexC5a (some 8000) = (true, cexC5b)
    ∧ MIN_GENERATABLE_FREQUENCY < cexC5b.toneFrequency
    ∧ cexC5b.toneFrequency < MAX_GENERATABLE_FREQUENCY
    ∧ 0 < cexC5b.samplingFrequency
    ∧ cexC5b.stepArgument
        ≠ DOUBLE_PI * ((cexC5b.toneFrequency : ℚ) : ℝ) / ((cexC5b.samplingFrequency : ℚ) : ℝ)
    ∧ ASG.round (cexC5b.samplingFrequency / cexC5b.toneFrequency) = some 80
    ∧ cexC5b.periodSize_samples = 0 := by
  refine ⟨?_, ?_, by norm_num [cexC5b, MIN_GENERATABLE_FREQUENCY],
    by norm_num [cexC5b, MAX_GENERATABLE_FREQUENCY], by norm_num [cexC5b], ?_, ?_, rfl⟩
  · have h := setToneFrequency_eval PureTone.init 100 0
      (by norm_num [MIN_GENERATABLE_FREQUENCY, MAX_GENERATABLE_FREQUENCY])
      (round_eq _ 0 (by norm_num [PureTone.init]) (by norm_num [PureTone.init])
        (by norm_num) (by norm_num))
      (by norm_num) (by norm_num)
    exact h
  · norm_num [PureTone.setSamplingFrequency, cexC5a, cexC5b]
  · simp only [cexC5b, DOUBLE_PI]
    push_cast
    intro h
    field_simp at h
  · simp only [cexC5b]
    exact round_eq _ 80 (by norm_num) (by norm_num) (by norm_num) (by norm_num)

/-- C5 (amended): the invariants `stepArgument = 2π·f/fs` and
`periodSize_samples = round(fs/f)` hold in the state produced by
every successful setToneFrequency call, computed from the sampling
rate current at that moment; a later sampling-rate change does not
re-establish them (see the counterexample). -/
theorem C5_derived (s s2 : PureTone) (f : ℚ)
    (hfs : 0 < s.samplingFrequency)
    (hset : PureTone.setToneFrequency s (some f) = some (true, s2)) :
    s2.toneFrequency = f
    ∧ s2.samplingFrequency = s.samplingFrequency
    ∧ s2.stepArgument = DOUBLE_PI * ((f : ℚ) : ℝ) / ((s.samplingFrequency : ℚ) : ℝ)
    ∧ ∃ z : ℤ, ASG.round (s.samplingFrequency / f) = some z
        ∧ ((s2.periodSize_samples : ℕ) : ℤ) = z := by
  simp only [PureTone.setToneFrequency] at hset
  by_cases hc : f ≤ MIN_GENERATABLE_FREQUENCY ∨ MAX_GENERATABLE_FREQUENCY ≤ f
  · rw [if_pos hc] at hset
    simp at hset
  · rw [if_neg hc] at hset
    push_neg at hc
    have hf0 : (0 : ℚ) < f := by
      have h10 := hc.1
      simp only [MIN_GENERATABLE_FREQUENCY] at h10
      linarith
    simp only [seconds2samples, PureTone.getPeriod_secs, PureTone.setStepArgument,
      Option.map_map] at hset
    rw [Option.map_eq_some'] at hset
    obtain ⟨z, hround, heq⟩ := hset
    have hX : (true, (⟨s.position, s.samplingFrequency, f, s.phase,
        DOUBLE_PI * ((f : ℚ) : ℝ) / ((s.samplingFrequency : ℚ) : ℝ),
        (z % 2 ^ 64).toNat % 2 ^ 32⟩ : PureTone)) = (true, s2) := by
      simpa using heq
    have hs2 : s2 = (⟨s.position, s.samplingFrequency, f, s.phase,
        DOUBLE_PI * ((f : ℚ) : ℝ) / ((s.samplingFrequency : ℚ) : ℝ),
        (z % 2 ^ 64).toNat % 2 ^ 32⟩ : PureTone) := (congrArg Prod.snd hX).symm
    subst hs2
    have harg : 1 / f * s.samplingFrequency = s.samplingFrequency / f := by
      field_simp
    rw [harg] at hround
    obtain ⟨hz, hzlo, hzhi⟩ := round_some _ _ hround
    have hz0 : 0 ≤ z := by
      have hXpos : (0 : ℚ) < s.samplingFrequency / f := div_pos hfs hf0
      have hmono : ⌈(-1 : ℚ) / 2⌉ ≤ ⌈s.samplingFrequency / f - 1 / 2⌉ :=
        Int.ceil_le_ceil (by linarith)
      rw [ceil_neg_half] at hmono
      omega
    refine ⟨rfl, rfl, rfl, z, hround, ?_⟩
    show (((z % 2 ^ 64).toNat % 2 ^ 32 : ℕ) : ℤ) = z
    have h64 : z % 2 ^ 64 = z := Int.emod_eq_of_lt hz0 (by omega)
    rw [h64]
    omega

/-- C5 witness: on a tone at sampling rate 8000,
setToneFrequency(100) commits stepArgument 2π·100/8000 and
periodSize 80 = round(8000/100). -/
theorem C5_derived_witness :
    toneW.toneFrequency = 100
    ∧ toneW.samplingFrequency = (⟨0, 8000, 500, 0, 0, 0⟩ : PureTone).samplingFrequency
    ∧ toneW.stepArgument = DOUBLE_PI * (((100 : ℚ)) : ℝ)
        / (((⟨0, 8000, 500, 0, 0, 0⟩ : PureTone).samplingFrequency : ℚ) : ℝ)
    ∧ ∃ z : ℤ, ASG.round ((⟨0, 8000, 500, 0, 0, 0⟩ : PureTone).samplingFrequency / 100) = some z
        ∧ ((toneW.periodSize_samples : ℕ) : ℤ) = z :=
  C5_derived ⟨0, 8000, 500, 0, 0, 0⟩ toneW 100 (by norm_num)
    (setToneFrequency_eval ⟨0, 8000, 500, 0, 0, 0⟩ 100 80
      (by norm_num [MIN_GENERATABLE_FREQUENCY, MAX_GENERATABLE_FREQUENCY])
      (round_eq _ 80 (by norm_num) (by norm_num) (by norm_num) (by norm_num))
      (by norm_num) (by norm_num))

end ASG

namespace ASG

/-- C6 counterexample: a 7500 Hz tone at 20 kHz (periodSize 3,
stepArgument 3π/4, reachable through the public setters) generated
as one call of 6 samples differs from the split 4 + 2: the first
call wraps the position from 4 to 1, so the 5th overall sample is
sin(3π/4·4) = sin(3π) = 0 in the one-shot call but
sin(3π/4·1) = sin(3π/4) = √2/2 in the split one — a discrepancy of
√2/2, far beyond the float tolerance. -/
theorem C6_counterexample :
    PureTone.setSamplingFrequency PureTone.init (some 20000)
      = (true, (⟨0, 20000, 500, 0, 0, 0⟩ : PureTone))
    ∧ PureTone.setToneFrequency (⟨0, 20000, 500, 0, 0, 0⟩ : PureTone) (some 7500)
      = some (true, cexTone)
    ∧ (PureTone.generate cexTone false 4).map ToneGenResult.state = some cexMid
    ∧ (PureTone.generate cexTone false 6).map (fun r => r.samples.getD 4 0)
      = some (Real.sin (3 * Real.pi))
    ∧ (PureTone.generate cexMid false 2).map (fun r => r.samples.getD 0 0)
      = some (Real.sin (3 * Real.pi / 4))
    ∧ FLOAT32_TOLERANCE < |Real.sin (3 * Real.pi) - Real.sin (3 * Real.pi / 4)| := by
  refine ⟨?_, ?_, ?_, ?_, ?_, ?_⟩
  · norm_num [PureTone.setSamplingFrequency, PureTone.init]
  · have h := setToneFrequency_eval (⟨0, 20000, 500, 0, 0, 0⟩ : PureTone) 7500 3
      (by norm_num [MIN_GENERATABLE_FREQUENCY, MAX_GENERATABLE_FREQUENCY])
      (round_eq _ 3 (by norm_num) (by norm_num) (by norm_num) (by norm_num))
      (by norm_num) (by norm_num)
    dsimp only at h
    rw [show DOUBLE_PI * ((7500 : ℚ) : ℝ) / ((20000 : ℚ) : ℝ) = 3 * Real.pi / 4 from by
      unfold DOUBLE_PI; push_cast; ring] at h
    exact h
  · rw [PureTone.generate_some cexTone 4 (by norm_num) (by norm_num [cexTone])
      (by norm_num [cexTone]) (by norm_num [cexTone])]
    simp only [Option.map_some', Option.some_inj]
    norm_num [PureTone.nextPosition, cexTone, cexMid]
  · rw [PureTone.generate_some cexTone 6 (by norm_num) (by norm_num [cexTone])
      (by norm_num [cexTone]) (by norm_num [cexTone])]
    simp only [Option.map_some', Option.some_inj, List.getD_eq_getElem?_getD,
      List.getElem?_map, List.getElem?_range]
    norm_num [cexTone]
  · rw [PureTone.generate_some cexMid 2 (by norm_num) (by norm_num [cexMid])
      (by norm_num [cexMid]) (by norm_num [cexMid])]
    simp only [Option.map_some', Option.some_inj, List.getD_eq_getElem?_getD,
      List.getElem?_map, List.getElem?_range]
    norm_num [cexMid]
  · have h0 : Real.sin (3 * Real.pi) = 0 := by
      have h := Real.sin_int_mul_pi 3
      push_cast at h
      exact h
    have h34 : Real.sin (3 * Real.pi / 4) = Real.sqrt 2 / 2 := by
      rw [show 3 * Real.pi / 4 = Real.pi - Real.pi / 4 from by ring, Real.sin_pi_sub,
        Real.sin_pi_div_four]
    rw [h0, h34, zero_sub, abs_neg, abs_of_nonneg (by positivity)]
    have h2 : (1 : ℝ) ≤ Real.sqrt 2 := by
      rw [show (1 : ℝ) = Real.sqrt 1 from (Real.sqrt_one).symm]
      exact Real.sqrt_le_sqrt (by norm_num)
    unfold FLOAT32_TOLERANCE
    linarith

/-- C6 (amended): splitting a generate call of `N` samples from
position 0 into `k` then `N - k` produces the identical sample
sequence whenever the first call does not cross the period boundary
(`k < periodSize_samples`); in the idealised real model the
equality is exact.  When the first call wraps, the split sequence's
tail is phase-shifted by `stepArgument · periodSize_samples` per
wrap and generally differs (see the counterexample). -/
theorem C6_split_no_wrap (s : PureTone) (N k : ℕ)
    (hpos : s.position = 0) (hk0 : 0 < k) (hkN : k < N) (hkP : k < s.periodSize_samples)
    (hf : s.toneFrequency ≠ 0) (hfs : s.samplingFrequency ≠ 0) :
    ∃ r1 r2 r3,
      PureTone.generate s false N = some r1
      ∧ PureTone.generate s false k = some r2
      ∧ PureTone.generate r2.state false (N - k) = some r3
      ∧ r1.samples = r2.samples ++ r3.samples := by
  have hP : s.periodSize_samples ≠ 0 := by omega
  have h1 := PureTone.generate_some s N (by omega) hf hfs hP
  have h2 := PureTone.generate_some s k (by omega) hf hfs hP
  have hnext : PureTone.nextPosition s k = k := by
    unfold PureTone.nextPosition
    rw [if_neg (by omega)]
    omega
  have h3 := PureTone.generate_some (⟨PureTone.nextPosition s k, s.samplingFrequency,
      s.toneFrequency, s.phase, s.stepArgument, s.periodSize_samples⟩ : PureTone) (N - k)
    (by omega) hf hfs hP
  refine ⟨_, _, _, h1, h2, h3, ?_⟩
  dsimp only
  simp only [hpos, hnext, Nat.zero_add]
  rw [show N = k + (N - k) from by omega, List.range_add, List.map_append, List.map_map,
    show k + (N - k) - k = N - k from by omega]
  congr 1

/-- C6 witness: a 100 Hz tone at 8 kHz (period 80 samples),
5 samples split as 2 + 3 without crossing the period boundary. -/
theorem C6_split_no_wrap_witness :
    (0 < 2 ∧ 2 < 5 ∧ 2 < toneW.periodSize_samples
      ∧ toneW.toneFrequency ≠ 0 ∧ toneW.samplingFrequency ≠ 0)
    ∧ ∃ r1 r2 r3,
      PureTone.generate toneW false 5 = some r1
      ∧ PureTone.generate toneW false 2 = some r2
      ∧ PureTone.generate r2.state false (5 - 2) = some r3
      ∧ r1.samples = r2.samples ++ r3.samples :=
  ⟨⟨by norm_num, by norm_num, by norm_num [toneW], by norm_num [toneW], by norm_num [toneW]⟩,
   C6_split_no_wrap toneW 5 2 rfl (by norm_num) (by norm_num) (by norm_num [toneW])
     (by norm_num [toneW]) (by norm_num [toneW])⟩

end ASG

namespace ASG

/-- C7 counterexample: setPhase(-1) returns true but stores
`fmod(-1, 2π) = -1`, which is not in [0, 2π): negative phases are
not normalised into [0, 2π). -/
theorem C7_counterexample :
    (PureTone.setPhase PureTone.init (-1)).1 = true
    ∧ (PureTone.setPhase PureTone.init (-1)).2.phase = -1
    ∧ ¬(0 ≤ (PureTone.setPhase PureTone.init (-1)).2.phase) := by
  have h2pi : (1 : ℝ) < 2 * PI := by
    unfold PI
    nlinarith [Real.pi_gt_three]
  have hphase : normalizeRadian (-1) = -1 := by
    unfold normalizeRadian truncR
    have hneg : (-1 : ℝ) / (2 * PI) < 0 := div_neg_of_neg_of_pos (by norm_num) (by linarith)
    rw [if_pos hneg]
    have hceil : ⌈(-1 : ℝ) / (2 * PI)⌉ = 0 := by
      rw [Int.ceil_eq_zero_iff, Set.mem_Ioc]
      constructor
      · rw [show (-1 : ℝ) / (2 * PI) = -(1 / (2 * PI)) from by ring]
        have hlt : 1 / (2 * PI) < 1 := by
          rw [div_lt_one (by linarith)]
          linarith
        linarith
      · linarith
    rw [hceil]
    push_cast
    ring
  refine ⟨rfl, ?_, ?_⟩
  · show normalizeRadian (-1) = -1
    exact hphase
  · show ¬(0 ≤ normalizeRadian (-1))
    rw [hphase]
    norm_num

/-- C7 (amended): setPhase always returns true and stores
`fmod(phase, 2π)`, which keeps the sign of its argument: the stored
phase lies in [0, 2π) for nonnegative arguments but in (-2π, 0] for
negative ones — it is not normalised into [0, 2π) in general. -/
theorem C7_setPhase (s : PureTone) (x : ℝ) :
    (PureTone.setPhase s x).1 = true
    ∧ (PureTone.setPhase s x).2.phase = normalizeRadian x
    ∧ (0 ≤ x → 0 ≤ normalizeRadian x ∧ normalizeRadian x < 2 * PI)
    ∧ (x < 0 → -(2 * PI) < normalizeRadian x ∧ normalizeRadian x ≤ 0) := by
  have hpi : (0 : ℝ) < 2 * PI := by
    unfold PI
    nlinarith [Real.pi_pos]
  refine ⟨rfl, rfl, ?_, ?_⟩
  · intro hx
    unfold normalizeRadian truncR
    rw [if_neg (not_lt.mpr (div_nonneg hx hpi.le))]
    have hfr : x - 2 * PI * ⌊x / (2 * PI)⌋ = (2 * PI) * Int.fract (x / (2 * PI)) := by
      unfold Int.fract
      field_simp
    rw [hfr]
    constructor
    · exact mul_nonneg hpi.le (Int.fract_nonneg _)
    · nlinarith [Int.fract_lt_one (x / (2 * PI)), Int.fract_nonneg (x / (2 * PI))]
  · intro hx
    unfold normalizeRadian truncR
    rw [if_pos (div_neg_of_neg_of_pos hx hpi)]
    have h1 : x / (2 * PI) ≤ ⌈x / (2 * PI)⌉ := Int.le_ceil _
    have h2 : (⌈x / (2 * PI)⌉ : ℝ) < x / (2 * PI) + 1 := Int.ceil_lt_add_one _
    have hx2 : x / (2 * PI) * (2 * PI) = x := by
      field_simp
    constructor
    · nlinarith
    · nlinarith

/-- C7 witness: a nonnegative phase (7 radians) is stored inside
[0, 2π). -/
theorem C7_setPhase_witness :
    (0 : ℝ) ≤ 7 ∧ (0 ≤ normalizeRadian 7 ∧ normalizeRadian 7 < 2 * PI) :=
  ⟨by norm_num, (C7_setPhase PureTone.init 7).2.2.1 (by norm_num)⟩

/-- C8: setToneFrequency returns false with the state (frequency and
both derived fields) unchanged exactly when the argument is NaN
(modelled `none`), ≤ MIN_GENERATABLE_FREQUENCY (10), or
≥ MAX_GENERATABLE_FREQUENCY (20000) — an open acceptance interval:
the boundary values themselves are rejected. -/
theorem C8_setToneFrequency (s : PureTone) (x : Option ℚ) :
    PureTone.setToneFrequency s x = some (false, s)
    ↔ (x = none ∨ ∃ f, x = some f
        ∧ (f ≤ MIN_GENERATABLE_FREQUENCY ∨ MAX_GENERATABLE_FREQUENCY ≤ f)) := by
  cases x with
  | none => simp [PureTone.setToneFrequency]
  | some f =>
    simp only [PureTone.setToneFrequency]
    by_cases hc : f ≤ MIN_GENERATABLE_FREQUENCY ∨ MAX_GENERATABLE_FREQUENCY ≤ f
    · rw [if_pos hc]
      simp [hc]
    · rw [if_neg hc]
      simp only [Option.map_eq_some']
      constructor
      · rintro ⟨p, _, hp⟩
        exact absurd (congrArg Prod.fst hp) (by simp)
      · rintro (h | ⟨f2, hf2, hcond⟩)
        · exact absurd h (by simp)
        · obtain rfl : f2 = f := by simpa using hf2.symm
          exact absurd hcond hc

/-- C8 witness: the boundary frequencies 10 and 20000 and NaN are
all rejected with the default state preserved. -/
theorem C8_setToneFrequency_witness :
    PureTone.setToneFrequency PureTone.init (some 10) = some (false, PureTone.init)
    ∧ PureTone.setToneFrequency PureTone.init (some 20000) = some (false, PureTone.init)
    ∧ PureTone.setToneFrequency PureTone.init none = some (false, PureTone.init) :=
  ⟨(C8_setToneFrequency PureTone.init (some 10)).mpr
      (Or.inr ⟨10, rfl, Or.inl (by norm_num [MIN_GENERATABLE_FREQUENCY])⟩),
   (C8_setToneFrequency PureTone.init (some 20000)).mpr
      (Or.inr ⟨20000, rfl, Or.inr (by norm_num [MAX_GENERATABLE_FREQUENCY])⟩),
   (C8_setToneFrequency PureTone.init none).mpr (Or.inl rfl)⟩

/-- C10: the claimed safety property fails on the code.  A
default-constructed PureTone has toneFrequency 500 and
samplingFrequency 1, so `generate(buffer, 1, sync)` passes the
precondition check, yet `periodSize_samples_` is 0 (the constructor
initialises it to 0 and no setToneFrequency ran): the very first
loop iteration evaluates `(position + 0) % 0` — division by zero,
undefined behaviour (`none`). -/
theorem C10_default_div_by_zero :
    PureTone.init.toneFrequency ≠ 0
    ∧ PureTone.init.samplingFrequency ≠ 0
    ∧ PureTone.init.periodSize_samples = 0
    ∧ PureTone.generate PureTone.init false 1 = none := by
  refine ⟨by norm_num [PureTone.init], by norm_num [PureTone.init], rfl, ?_⟩
  unfold PureTone.generate
  rw [if_neg (by norm_num [PureTone.init]),
    if_pos (show PureTone.init.periodSize_samples = 0 from rfl)]

end ASG
